import Mathlib

/-!
Verification of the maintenance-scheduling core of the kopia repository
(`repo/maintenance/maintenance_run.go`).

Shallow embedding conventions:
* `time.Time` is embedded as `Int` (nanoseconds since an arbitrary epoch);
  the zero `time.Time` of Go is embedded as `0`, `t.IsZero()` as `t = 0`,
  `t.Before u` as `t < u`, `t.After u` as `u < t`, `t.Add d` as `t + d`,
  and `t.Sub u` as `t - u`.
* `time.Duration` is embedded as `Int` (nanoseconds).
* Fallible Go calls return `Except String` / `Option String`; external
  collaborators (blob store, lock primitive, task bodies) are environment
  inputs recording the outcome each call would produce.
* Task execution through the `ReportRun` wrapper is observed as a trace:
  each orchestration function returns the list of task identifiers whose
  execution was attempted, in order, together with the resulting error.
-/

namespace Kopia.Maintenance

/-- Maximum permitted clock skew, `5 * time.Minute` in nanoseconds. -/
def maxClockSkew : Int := 5 * 60 * 1000000000

/-- Mode describes the mode of maintenance to perform
(Go: `type Mode string` with four constants). -/
inductive Mode where
  | none
  | quick
  | full
  | auto
  deriving DecidableEq, Repr

def ModeNone : Mode := Mode.none
def ModeQuick : Mode := Mode.quick
def ModeFull : Mode := Mode.full
def ModeAuto : Mode := Mode.auto

/-- TaskType identifies the type of a maintenance task (Go: string). -/
abbrev TaskType := String

def TaskSnapshotGarbageCollection : TaskType := "snapshot-gc"
def TaskDeleteOrphanedBlobsQuick : TaskType := "quick-delete-blobs"
def TaskDeleteOrphanedBlobsFull : TaskType := "full-delete-blobs"
def TaskRewriteContentsQuick : TaskType := "quick-rewrite-contents"
def TaskRewriteContentsFull : TaskType := "full-rewrite-contents"
def TaskDropDeletedContentsFull : TaskType := "full-drop-deleted-content"
def TaskIndexCompaction : TaskType := "index-compaction"
def TaskCleanupLogs : TaskType := "cleanup-logs"
def TaskCleanupEpochManager : TaskType := "cleanup-epoch-manager"

/-- One historical execution record of a maintenance task: start timestamp,
end timestamp and a success flag (spec §3, used throughout
`maintenance_run.go`). -/
structure RunInfo where
  Start : Int
  End : Int
  Success : Bool
  deriving DecidableEq, Repr

/-- Persisted maintenance schedule: next due time for each cycle plus the
per-task run history map (spec §3; accessed as `s.NextFullMaintenanceTime`,
`s.NextQuickMaintenanceTime`, `s.Runs[task]` in `maintenance_run.go`).
The Go map from task type to run list is embedded as a total function
returning `[]` for absent keys, matching Go map-read semantics. -/
structure Schedule where
  NextFullMaintenanceTime : Int
  NextQuickMaintenanceTime : Int
  Runs : TaskType → List RunInfo

/-- Enabled flag and interval for one maintenance cycle (spec §3). -/
structure CycleParams where
  Enabled : Bool
  Interval : Int
  deriving DecidableEq, Repr

/-- Maintenance parameters: owner identity and per-cycle configuration
(spec §3; accessed as `p.Owner`, `p.FullCycle`, `p.QuickCycle` in
`maintenance_run.go`). -/
structure Params where
  Owner : String
  FullCycle : CycleParams
  QuickCycle : CycleParams
  deriving DecidableEq, Repr

/-- Tunable safety margins (spec §3; accessed by name in
`maintenance_run.go`). Durations in nanoseconds. -/
structure SafetyParameters where
  RequireTwoGCCycles : Bool
  MinRewriteToOrphanDeletionDelay : Int
  MarginBetweenSnapshotGC : Int
  DropContentFromIndexExtraMargin : Int
  deriving DecidableEq, Repr

/-- Embeds `errors.Wrap(err, msg)`: produces the message `msg ++ ": " ++ err`. -/
def errWrap (msg : String) (e : String) : String := msg ++ ": " ++ e

/-- Loop body of `maxEndTime`: skip unsuccessful runs, keep the later of
the accumulator and `r.End` (`r.End.After(result)` is `result < r.End`). -/
def maxEndStep (result : Int) (r : RunInfo) : Int :=
  if r.Success then (if result < r.End then r.End else result) else result

/-- Embeds `maxEndTime(taskRuns ...[]RunInfo)`: the latest `End` among successful
runs of the given run lists, or the zero time if there is none. -/
def maxEndTime (taskRuns : List (List RunInfo)) : Int :=
  taskRuns.foldl (fun result tr => tr.foldl maxEndStep result) 0

/-- Embeds `shouldQuickRewriteContents`: ok to rewrite contents in the quick cycle.
Considers both full and quick rewrite history. -/
def shouldQuickRewriteContents (s : Schedule) (safety : SafetyParameters) : Bool :=
  let latestContentRewriteEndTime :=
    maxEndTime [s.Runs TaskRewriteContentsFull, s.Runs TaskRewriteContentsQuick]
  let latestBlobDeleteTime :=
    maxEndTime [s.Runs TaskDeleteOrphanedBlobsFull, s.Runs TaskDeleteOrphanedBlobsQuick]
  if latestContentRewriteEndTime = 0 || safety.MinRewriteToOrphanDeletionDelay = 0 then
    true
  else
    !(latestBlobDeleteTime < latestContentRewriteEndTime)

/-- Embeds `shouldFullRewriteContents`: ok to rewrite contents in the full cycle.
Deliberately ignores quick rewrite history (source comment: this allows full
rewrite to sometimes follow quick rewrite). -/
def shouldFullRewriteContents (s : Schedule) (safety : SafetyParameters) : Bool :=
  let latestContentRewriteEndTime := maxEndTime [s.Runs TaskRewriteContentsFull]
  let latestBlobDeleteTime :=
    maxEndTime [s.Runs TaskDeleteOrphanedBlobsFull, s.Runs TaskDeleteOrphanedBlobsQuick]
  if latestContentRewriteEndTime = 0 || safety.MinRewriteToOrphanDeletionDelay = 0 then
    true
  else
    !(latestBlobDeleteTime < latestContentRewriteEndTime)

/-- Embeds `nextBlobDeleteTime`: earliest time orphaned-blob deletion is allowed. -/
def nextBlobDeleteTime (s : Schedule) (safety : SafetyParameters) : Int :=
  let latestContentRewriteEndTime :=
    maxEndTime [s.Runs TaskRewriteContentsFull, s.Runs TaskRewriteContentsQuick]
  if latestContentRewriteEndTime = 0 then 0
  else latestContentRewriteEndTime + safety.MinRewriteToOrphanDeletionDelay

/-- Embeds `shouldDeleteOrphanedPacks`: ok to delete orphaned packs now. -/
def shouldDeleteOrphanedPacks (now : Int) (s : Schedule) (safety : SafetyParameters) : Bool :=
  !(now < nextBlobDeleteTime s safety)

/-- Embeds `hadRecentFullRewrite`: the latest successful full-rewrite end is not
before the latest successful quick-rewrite end. -/
def hadRecentFullRewrite (s : Schedule) : Bool :=
  !(maxEndTime [s.Runs TaskRewriteContentsFull] < maxEndTime [s.Runs TaskRewriteContentsQuick])

/-- Insert a run into a list sorted by `Start` descending (auxiliary used to
embed the Go call `sort.Slice(successfulRuns, Start.After)`). -/
def insertRunDesc (r : RunInfo) : List RunInfo → List RunInfo
  | [] => [r]
  | x :: xs => if x.Start > r.Start then x :: insertRunDesc r xs else r :: x :: xs

/-- Sort runs by `Start` descending, embedding the `sort.Slice` call in
`findSafeDropTime` (any order consistent with the comparator is a faithful
model of the unstable Go sort). -/
def sortRunsByStartDesc : List RunInfo → List RunInfo
  | [] => []
  | r :: rs => insertRunDesc r (sortRunsByStartDesc rs)

/-- The scan loop of `findSafeDropTime`: look for the first previous
successful run whose distance to the most recent start exceeds the safety
margin. `r0Start` is `successfulRuns[0].Start`. -/
def findSafeDropScan (r0Start : Int) (safety : SafetyParameters) : List RunInfo → Int
  | [] => 0
  | r :: rest =>
    let diff := -(r.End - r0Start)
    if diff > safety.MarginBetweenSnapshotGC then
      r.Start - safety.DropContentFromIndexExtraMargin
    else
      findSafeDropScan r0Start safety rest

/-- Embeds `findSafeDropTime(runs, safety)`: latest timestamp for which it is safe
to drop content entries deleted before that time. -/
def findSafeDropTime (runs : List RunInfo) (safety : SafetyParameters) : Int :=
  let successfulRuns := runs.filter (fun r => r.Success)
  if successfulRuns.length ≤ 1 then 0
  else
    match sortRunsByStartDesc successfulRuns with
    | [] => 0
    | r0 :: rest => findSafeDropScan r0.Start safety rest

/-- Embeds `checkClockSkewBounds`: compare the local clock with the repository
timestamp; `some msg` embeds a returned error. -/
def checkClockSkewBounds (localTime : Int) (repoTime : Int) : Option String :=
  let clockSkew := repoTime - localTime
  let clockSkew := if clockSkew < 0 then -clockSkew else clockSkew
  if clockSkew > maxClockSkew then
    some "Clock skew detected: local clock is out of sync with repository timestamp by more than allowed. Refusing to run maintenance."
  else
    none

/-- Embeds `shouldRun`: resolve `auto` mode from ownership and schedule.
`username` is `rep.ClientOptions().UsernameAtHost()`, `getSchedule` the
outcome `GetSchedule` would produce, `now` is `rep.Time()`. -/
def shouldRun (username : String) (getSchedule : Except String Schedule)
    (now : Int) (p : Params) : Except String Mode :=
  if p.Owner ≠ username then
    Except.ok ModeNone
  else
    match getSchedule with
    | Except.error e => Except.error (errWrap "error getting status" e)
    | Except.ok s =>
      if p.FullCycle.Enabled && !(now < s.NextFullMaintenanceTime) then
        Except.ok ModeFull
      else if p.QuickCycle.Enabled && !(now < s.NextQuickMaintenanceTime) then
        Except.ok ModeQuick
      else
        Except.ok ModeNone

/-- Embeds `updateSchedule`: advance the schedule according to the resolved mode
and persist it. `Except.ok (some s2)` means `SetSchedule` was invoked with
`s2` and succeeded; `Except.ok none` means no write happened (default
branch). `setScheduleResult` is the outcome `SetSchedule` would produce. -/
def updateSchedule (getSchedule : Except String Schedule)
    (setScheduleResult : Option String) (now : Int) (p : Params) (mode : Mode) :
    Except String (Option Schedule) :=
  match getSchedule with
  | Except.error e => Except.error (errWrap "error getting schedule" e)
  | Except.ok s =>
    match mode with
    | Mode.full =>
      let s2 := { s with
        NextFullMaintenanceTime := now + p.FullCycle.Interval
        NextQuickMaintenanceTime := now + p.QuickCycle.Interval }
      match setScheduleResult with
      | some e => Except.error e
      | none => Except.ok (some s2)
    | Mode.quick =>
      let s2 := { s with NextQuickMaintenanceTime := now + p.QuickCycle.Interval }
      match setScheduleResult with
      | some e => Except.error e
      | none => Except.ok (some s2)
    | _ => Except.ok none

/-- Error taxonomy of `RunExclusive`: the distinguished `NotOwnedError`
(carrying the owner identity) versus every other error (as a message). -/
inductive MaintError where
  | notOwned (owner : String)
  | other (msg : String)
  deriving DecidableEq, Repr

/-- Observable side effects of one `RunExclusive` invocation:
`DisableIndexRefresh` (always performed first), whether the local file lock
was acquired, the schedule passed to `SetSchedule` (if any), and whether the
callback was invoked. -/
structure Effects where
  indexRefreshDisabled : Bool
  lockAcquired : Bool
  scheduleWritten : Option Schedule
  callbackInvoked : Bool

/-- The effects of an invocation that stopped before acquiring the lock. -/
def baseEffects : Effects :=
  { indexRefreshDisabled := true, lockAcquired := false
    scheduleWritten := none, callbackInvoked := false }

/-- Environment for `RunExclusive`: the outcomes every external collaborator
call would produce during this invocation. -/
structure RunEnv where
  /-- From `rep.ClientOptions().UsernameAtHost()`. -/
  username : String
  /-- Outcome of `GetParams`. -/
  getParams : Except String Params
  /-- Outcome of `GetSchedule` (read within this locked session). -/
  getSchedule : Except String Schedule
  /-- Outcome of `SetSchedule`. -/
  setScheduleResult : Option String
  /-- From `rep.Time()`. -/
  now : Int
  /-- Outcome of `flock.TryLock()`. -/
  tryLock : Except String Bool
  /-- Outcome of `BlobReader().GetMetadata(maintenanceScheduleBlobID)`:
  the recorded timestamp of the blob. -/
  blobMetadataTimestamp : Except String Int
  /-- Outcome of `rep.Refresh()`. -/
  refreshResult : Option String
  /-- Outcome of the callback `cb`. -/
  cbResult : Option String

/-- Modelled from the spec: `Params.isOwnedByByThisUser` is defined outside
`maintenance_run.go`; per spec §4.3 step 2 it checks that the caller
identity equals `Params.Owner`. -/
def isOwnedByByThisUser (p : Params) (username : String) : Bool :=
  p.Owner == username

/-- Embeds `RunExclusive(ctx, rep, mode, force, cb)`: ownership check, auto-mode
resolution, local lock, schedule advance, clock-skew check, refresh, then
the callback. Returns the Go error outcome paired with the observable
side effects. -/
def RunExclusive (env : RunEnv) (mode : Mode) (force : Bool) :
    Except MaintError Unit × Effects :=
  match env.getParams with
  | Except.error e =>
    (Except.error (MaintError.other (errWrap "unable to get maintenance params" e)), baseEffects)
  | Except.ok p =>
    if !force && !(isOwnedByByThisUser p env.username) then
      (Except.error (MaintError.notOwned p.Owner), baseEffects)
    else
      match (if mode = ModeAuto then shouldRun env.username env.getSchedule env.now p
             else Except.ok mode) with
      | Except.error e =>
        (Except.error (MaintError.other
          (errWrap "unable to determine if maintenance is required" e)), baseEffects)
      | Except.ok mode2 =>
        if mode2 = ModeNone then
          (Except.ok (), baseEffects)
        else
          match env.tryLock with
          | Except.error e =>
            (Except.error (MaintError.other (errWrap "error acquiring maintenance lock" e)),
              baseEffects)
          | Except.ok false => (Except.ok (), baseEffects)
          | Except.ok true =>
            let eff := { baseEffects with lockAcquired := true }
            match updateSchedule env.getSchedule env.setScheduleResult env.now p mode2 with
            | Except.error e =>
              (Except.error (MaintError.other (errWrap "error updating maintenance schedule" e)),
                eff)
            | Except.ok written =>
              let eff := { eff with scheduleWritten := written }
              match env.blobMetadataTimestamp with
              | Except.error e =>
                (Except.error (MaintError.other (errWrap "error getting maintenance blob time" e)),
                  eff)
              | Except.ok maintenanceStartTime =>
                match checkClockSkewBounds env.now maintenanceStartTime with
                | some e =>
                  (Except.error (MaintError.other (errWrap "error checking for clock skew" e)),
                    eff)
                | none =>
                  match env.refreshResult with
                  | some e =>
                    (Except.error (MaintError.other
                      (errWrap "error refreshing indexes before maintenance" e)), eff)
                  | none =>
                    let eff := { eff with callbackInvoked := true }
                    match env.cbResult with
                    | some e => (Except.error (MaintError.other e), eff)
                    | none => (Except.ok (), eff)

/-- Outcomes the individual task bodies would produce when executed
(the `ReportRun`-wrapped calls in the two cycle bodies); `none` = success. -/
structure TaskResults where
  rewriteQuick : Option String
  rewriteFull : Option String
  deleteQuick : Option String
  deleteFull : Option String
  indexCompaction : Option String
  cleanupLogs : Option String
  cleanupEpoch : Option String
  dropDeleted : Option String
  deriving DecidableEq, Repr

/-- Embeds `runTaskDropDeletedContentsFull`: compute the safe drop time (or `now`
when `RequireTwoGCCycles` is off); if it is the zero time, skip without
attempting the task, otherwise attempt `TaskDropDeletedContentsFull`. -/
def runTaskDropDeletedContentsFull (now : Int) (s : Schedule) (safety : SafetyParameters)
    (dropResult : Option String) : List TaskType × Option String :=
  let safeDropTime :=
    if safety.RequireTwoGCCycles then
      findSafeDropTime (s.Runs TaskSnapshotGarbageCollection) safety
    else
      now
  if safeDropTime = 0 then ([], none)
  else ([TaskDropDeletedContentsFull], dropResult)

/-- Embeds `runQuickMaintenance`: the quick cycle body. `epochOk`/`epochErr` embed
the `(_, ok, emerr)` result of `ContentManager().EpochManager()`. Returns
the trace of attempted tasks and the error outcome. -/
def runQuickMaintenance (epochOk : Bool) (epochErr : Option String)
    (getSchedule : Except String Schedule) (now : Int) (tr : TaskResults)
    (safety : SafetyParameters) : List TaskType × Option String :=
  if epochOk then ([], none)
  else
    match epochErr with
    | some e => ([], some (errWrap "epoch manager" e))
    | none =>
      match getSchedule with
      | Except.error e => ([], some (errWrap "unable to get schedule" e))
      | Except.ok s =>
        let step1 : List TaskType × Option String :=
          if shouldQuickRewriteContents s safety then
            ([TaskRewriteContentsQuick],
              tr.rewriteQuick.map (errWrap "error rewriting metadata contents"))
          else ([], none)
        match step1 with
        | (t1, some e) => (t1, some e)
        | (t1, none) =>
          let step2 : List TaskType × Option String :=
            if shouldDeleteOrphanedPacks now s safety then
              if hadRecentFullRewrite s then
                ([TaskDeleteOrphanedBlobsFull],
                  tr.deleteFull.map (errWrap "error deleting unreferenced metadata blobs"))
              else
                ([TaskDeleteOrphanedBlobsQuick],
                  tr.deleteQuick.map (errWrap "error deleting unreferenced metadata blobs"))
            else ([], none)
          match step2 with
          | (t2, some e) => (t1 ++ t2, some e)
          | (t2, none) =>
            let t3 := [TaskIndexCompaction]
            match tr.indexCompaction.map (errWrap "error performing index compaction") with
            | some e => (t1 ++ t2 ++ t3, some e)
            | none =>
              let t4 := [TaskCleanupLogs]
              match tr.cleanupLogs.map (errWrap "error cleaning up logs") with
              | some e => (t1 ++ t2 ++ t3 ++ t4, some e)
              | none => (t1 ++ t2 ++ t3 ++ t4, none)

/-- Embeds `runTaskCleanupEpochManager`: checks the epoch-manager query error
first, then presence; attempts `TaskCleanupEpochManager` only when the
epoch manager is active. -/
def runTaskCleanupEpochManager (epochOk : Bool) (epochErr : Option String)
    (cleanupEpoch : Option String) : List TaskType × Option String :=
  match epochErr with
  | some e => ([], some (errWrap "epoch manager" e))
  | none =>
    if !epochOk then ([], none)
    else
      ([TaskCleanupEpochManager],
        cleanupEpoch.map (errWrap "error cleaning up superseded index blobs"))

/-- Embeds `runFullMaintenance`: the full cycle body. Returns the trace of
attempted tasks and the error outcome. -/
def runFullMaintenance (epochOk : Bool) (epochErr : Option String)
    (getSchedule : Except String Schedule) (now : Int) (tr : TaskResults)
    (safety : SafetyParameters) : List TaskType × Option String :=
  match getSchedule with
  | Except.error e => ([], some (errWrap "unable to get schedule" e))
  | Except.ok s =>
    let step1 : List TaskType × Option String :=
      if shouldFullRewriteContents s safety then
        ([TaskRewriteContentsFull],
          tr.rewriteFull.map (errWrap "error rewriting contents in short packs"))
      else ([], none)
    match step1 with
    | (t1, some e) => (t1, some e)
    | (t1, none) =>
      match runTaskDropDeletedContentsFull now s safety tr.dropDeleted with
      | (t2, some e) => (t1 ++ t2, some (errWrap "error dropping deleted contents" e))
      | (t2, none) =>
        let step3 : List TaskType × Option String :=
          if shouldDeleteOrphanedPacks now s safety then
            ([TaskDeleteOrphanedBlobsFull],
              tr.deleteFull.map (errWrap "error deleting unreferenced blobs"))
          else ([], none)
        match step3 with
        | (t3, some e) => (t1 ++ t2 ++ t3, some e)
        | (t3, none) =>
          let t4 := [TaskCleanupLogs]
          match tr.cleanupLogs.map (errWrap "error cleaning up logs") with
          | some e => (t1 ++ t2 ++ t3 ++ t4, some e)
          | none =>
            match runTaskCleanupEpochManager epochOk epochErr tr.cleanupEpoch with
            | (t5, some e) =>
              (t1 ++ t2 ++ t3 ++ t4 ++ t5, some (errWrap "error cleaning up epoch manager" e))
            | (t5, none) => (t1 ++ t2 ++ t3 ++ t4 ++ t5, none)

/-! ### Helper lemmas about `maxEndTime` -/

theorem le_maxEndStep (acc : Int) (r : RunInfo) : acc ≤ maxEndStep acc r := by
  unfold maxEndStep
  split
  · split
    · omega
    · exact le_refl _
  · exact le_refl _

theorem end_le_maxEndStep (acc : Int) (r : RunInfo) (hs : r.Success = true) :
    r.End ≤ maxEndStep acc r := by
  unfold maxEndStep
  rw [hs]
  simp only [if_true]
  split <;> omega

theorem maxEndStep_le (acc b : Int) (r : RunInfo) (hacc : acc ≤ b)
    (hr : r.Success = true → r.End ≤ b) : maxEndStep acc r ≤ b := by
  unfold maxEndStep
  split
  · split
    · exact hr (by assumption)
    · exact hacc
  · exact hacc

theorem le_foldl_maxEndStep (l : List RunInfo) (acc : Int) :
    acc ≤ l.foldl maxEndStep acc := by
  induction l generalizing acc with
  | nil => exact le_refl _
  | cons x xs ih =>
    exact le_trans (le_maxEndStep acc x) (ih (maxEndStep acc x))

theorem foldl_maxEndStep_le (l : List RunInfo) (acc b : Int) (hacc : acc ≤ b)
    (h : ∀ r ∈ l, r.Success = true → r.End ≤ b) : l.foldl maxEndStep acc ≤ b := by
  induction l generalizing acc with
  | nil => exact hacc
  | cons x xs ih =>
    refine ih (maxEndStep acc x) ?_ ?_
    · exact maxEndStep_le acc b x hacc (h x (List.mem_cons_self x xs))
    · exact fun r hr => h r (List.mem_cons_of_mem x hr)

theorem end_le_foldl_maxEndStep (l : List RunInfo) (acc : Int) (r : RunInfo)
    (hr : r ∈ l) (hs : r.Success = true) : r.End ≤ l.foldl maxEndStep acc := by
  induction l generalizing acc with
  | nil => cases hr
  | cons x xs ih =>
    rcases List.mem_cons.mp hr with h | h
    · subst h
      exact le_trans (end_le_maxEndStep acc r hs) (le_foldl_maxEndStep xs _)
    · exact ih _ h

theorem le_foldl_outer (ls : List (List RunInfo)) (acc : Int) :
    acc ≤ ls.foldl (fun result tr => tr.foldl maxEndStep result) acc := by
  induction ls generalizing acc with
  | nil => exact le_refl _
  | cons x xs ih =>
    exact le_trans (le_foldl_maxEndStep x acc) (ih _)

theorem maxEndTime_nonneg (ls : List (List RunInfo)) : 0 ≤ maxEndTime ls :=
  le_foldl_outer ls 0

theorem end_le_maxEndTime (ls : List (List RunInfo)) (l : List RunInfo) (r : RunInfo)
    (hl : l ∈ ls) (hr : r ∈ l) (hs : r.Success = true) : r.End ≤ maxEndTime ls := by
  unfold maxEndTime
  have haux : ∀ (ls2 : List (List RunInfo)) (acc : Int), l ∈ ls2 →
      r.End ≤ ls2.foldl (fun result tr => tr.foldl maxEndStep result) acc := by
    intro ls2
    induction ls2 with
    | nil => intro acc h; cases h
    | cons x xs ih =>
      intro acc h
      rcases List.mem_cons.mp h with h | h
      · subst h
        exact le_trans (end_le_foldl_maxEndStep l acc r hr hs) (le_foldl_outer xs _)
      · exact ih _ h
  exact haux ls 0 hl

theorem maxEndTime_le (ls : List (List RunInfo)) (b : Int) (hb : 0 ≤ b)
    (h : ∀ l ∈ ls, ∀ r ∈ l, r.Success = true → r.End ≤ b) : maxEndTime ls ≤ b := by
  unfold maxEndTime
  have haux : ∀ (ls : List (List RunInfo)) (acc : Int), acc ≤ b →
      (∀ l ∈ ls, ∀ r ∈ l, r.Success = true → r.End ≤ b) →
      ls.foldl (fun result tr => tr.foldl maxEndStep result) acc ≤ b := by
    intro ls
    induction ls with
    | nil => exact fun acc hacc _ => hacc
    | cons x xs ih =>
      intro acc hacc hall
      refine ih _ ?_ ?_
      · exact foldl_maxEndStep_le x acc b hacc (hall x (List.mem_cons_self x xs))
      · exact fun l hl => hall l (List.mem_cons_of_mem x hl)
  exact haux ls 0 hb h

theorem maxEndTime_eq_zero_iff (ls : List (List RunInfo)) :
    maxEndTime ls = 0 ↔ ∀ l ∈ ls, ∀ r ∈ l, r.Success = true → r.End ≤ 0 := by
  constructor
  · intro h l hl r hr hs
    have := end_le_maxEndTime ls l r hl hr hs
    omega
  · intro h
    have h1 := maxEndTime_nonneg ls
    have h2 := maxEndTime_le ls 0 (le_refl _) h
    omega

/-- With positive timestamps (every successful run ends after the zero
time), `maxEndTime` is the zero time exactly when no run succeeded. -/
theorem maxEndTime_eq_zero_iff_noSuccess (ls : List (List RunInfo))
    (hpos : ∀ l ∈ ls, ∀ r ∈ l, r.Success = true → 0 < r.End) :
    maxEndTime ls = 0 ↔ ∀ l ∈ ls, ∀ r ∈ l, r.Success = false := by
  rw [maxEndTime_eq_zero_iff]
  constructor
  · intro h l hl r hr
    by_contra hs
    have hs2 : r.Success = true := by
      cases hsucc : r.Success
      · exact absurd hsucc hs
      · rfl
    have := h l hl r hr hs2
    have := hpos l hl r hr hs2
    omega
  · intro h l hl r hr hs
    have := h l hl r hr
    rw [this] at hs
    cases hs

/-! ### Helper lemmas about the descending insertion sort and the scan of
`findSafeDropTime` -/

theorem insertRunDesc_perm (r : RunInfo) (l : List RunInfo) :
    List.Perm (insertRunDesc r l) (r :: l) := by
  induction l with
  | nil => exact List.Perm.refl _
  | cons x xs ih =>
    unfold insertRunDesc
    split
    · exact List.Perm.trans (List.Perm.cons x ih) (List.Perm.swap r x xs)
    · exact List.Perm.refl _

theorem sortRunsByStartDesc_perm (l : List RunInfo) :
    List.Perm (sortRunsByStartDesc l) l := by
  induction l with
  | nil => exact List.Perm.refl _
  | cons x xs ih =>
    exact List.Perm.trans (insertRunDesc_perm x (sortRunsByStartDesc xs)) (List.Perm.cons x ih)

theorem insertRunDesc_pairwise (r : RunInfo) (l : List RunInfo)
    (h : List.Pairwise (fun a b => b.Start ≤ a.Start) l) :
    List.Pairwise (fun a b => b.Start ≤ a.Start) (insertRunDesc r l) := by
  induction l with
  | nil => exact List.pairwise_singleton _ _
  | cons x xs ih =>
    rcases List.pairwise_cons.mp h with ⟨hx, hxs⟩
    unfold insertRunDesc
    split
    · refine List.pairwise_cons.mpr ⟨?_, ih hxs⟩
      intro b hb
      rcases List.mem_cons.mp ((insertRunDesc_perm r xs).mem_iff.mp hb) with hb2 | hb2
      · subst hb2
        omega
      · exact hx b hb2
    · refine List.pairwise_cons.mpr ⟨?_, h⟩
      intro b hb
      rcases List.mem_cons.mp hb with hb2 | hb2
      · subst hb2
        omega
      · have := hx b hb2
        omega

theorem sortRunsByStartDesc_pairwise (l : List RunInfo) :
    List.Pairwise (fun a b => b.Start ≤ a.Start) (sortRunsByStartDesc l) := by
  induction l with
  | nil => exact List.Pairwise.nil
  | cons x xs ih => exact insertRunDesc_pairwise x _ ih

theorem findSafeDropScan_eq_find (r0Start : Int) (safety : SafetyParameters)
    (l : List RunInfo) :
    findSafeDropScan r0Start safety l =
      match l.find? (fun r => decide (safety.MarginBetweenSnapshotGC < r0Start - r.End)) with
      | some ri => ri.Start - safety.DropContentFromIndexExtraMargin
      | none => 0 := by
  induction l with
  | nil => rfl
  | cons x xs ih =>
    simp only [findSafeDropScan, neg_sub, gt_iff_lt, List.find?_cons]
    by_cases h : safety.MarginBetweenSnapshotGC < r0Start - x.End
    · rw [if_pos h, decide_eq_true h]
    · rw [if_neg h, decide_eq_false h]
      exact ih

theorem filter_success_idem (runs : List RunInfo) :
    (runs.filter (fun r => r.Success)).filter (fun r => r.Success) =
      runs.filter (fun r => r.Success) :=
  List.filter_eq_self.mpr (fun _ ha => (List.mem_filter.mp ha).2)

/-! ### Claim theorems -/

/-- C1: `findSafeDropTime`, applied to any sequence of GC `RunInfo`
records, returns the zero timestamp when the records contain zero or one
successful runs; when two or more successful runs exist, it sorts them by
start time descending and, for the first older run `Ri` with
`R0.Start − Ri.End` strictly greater than `MarginBetweenSnapshotGC`
(strict inequality), returns `Ri.Start − DropContentFromIndexExtraMargin`;
if no older run satisfies the margin it returns the zero timestamp.
Failed runs are ignored throughout (the result depends only on the
successful runs, and runs spaced exactly at the margin are not selected,
so two runs at exactly the margin yield the zero timestamp). -/
theorem findSafeDropTime_spec (runs : List RunInfo) (safety : SafetyParameters) :
    List.Perm (sortRunsByStartDesc (runs.filter (fun r => r.Success)))
      (runs.filter (fun r => r.Success)) ∧
    List.Pairwise (fun a b => b.Start ≤ a.Start)
      (sortRunsByStartDesc (runs.filter (fun r => r.Success))) ∧
    ((runs.filter (fun r => r.Success)).length ≤ 1 →
      findSafeDropTime runs safety = 0) ∧
    (∀ r0 rest,
      sortRunsByStartDesc (runs.filter (fun r => r.Success)) = r0 :: rest →
      2 ≤ (runs.filter (fun r => r.Success)).length →
      findSafeDropTime runs safety =
        match rest.find?
            (fun r => decide (safety.MarginBetweenSnapshotGC < r0.Start - r.End)) with
        | some ri => ri.Start - safety.DropContentFromIndexExtraMargin
        | none => 0) ∧
    findSafeDropTime runs safety = findSafeDropTime (runs.filter (fun r => r.Success)) safety := by
  refine ⟨sortRunsByStartDesc_perm _, sortRunsByStartDesc_pairwise _, ?_, ?_, ?_⟩
  · intro hlen
    unfold findSafeDropTime
    rw [if_pos hlen]
  · intro r0 rest hsort hlen
    unfold findSafeDropTime
    rw [if_neg (by omega), hsort]
    exact findSafeDropScan_eq_find r0.Start safety rest
  · unfold findSafeDropTime
    rw [filter_success_idem]

/-- Witness for C1: three GC runs, one failed; the two successful runs are
spaced beyond the margin, so the safe drop time is
`olderRun.Start − DropContentFromIndexExtraMargin = 0 − 7 = −7`. -/
theorem findSafeDropTime_spec_witness :
    findSafeDropTime
      [⟨100, 110, true⟩, ⟨50, 60, false⟩, ⟨0, 10, true⟩]
      ⟨true, 0, 50, 7⟩ = -7 := by
  have h := (findSafeDropTime_spec
    [⟨100, 110, true⟩, ⟨50, 60, false⟩, ⟨0, 10, true⟩] ⟨true, 0, 50, 7⟩).2.2.2.1
    ⟨100, 110, true⟩ [⟨0, 10, true⟩] (by decide) (by decide)
  simpa using h

/-- C2 (amended): for every repository whose content manager reports an
active epoch-based index manager, the quick maintenance cycle skips every
step — rewrite, orphan deletion, index compaction and also log cleanup —
returning success with an empty task trace. -/
theorem quickMaintenance_epoch_skips_all (epochErr : Option String)
    (getSchedule : Except String Schedule) (now : Int) (tr : TaskResults)
    (safety : SafetyParameters) :
    runQuickMaintenance true epochErr getSchedule now tr safety = ([], none) := rfl

/-- Counterexample to C2 as stated: with an active epoch manager the quick
cycle does NOT run the log cleanup task (it returns immediately, running
nothing), contradicting "runs only the log cleanup task". -/
theorem quickMaintenance_epoch_cex :
    TaskCleanupLogs ∉
      (runQuickMaintenance true none (Except.ok ⟨0, 0, fun _ => []⟩) 0
        ⟨none, none, none, none, none, none, none, none⟩ ⟨true, 1, 1, 1⟩).1 := by
  decide

/-- C3 (amended): in a full maintenance cycle the drop-deleted-contents
step is attempted whenever the preceding rewrite step was skipped as not
due or succeeded (the trace decomposes around the trace of the drop step);
when the rewrite step fails, the cycle aborts with the wrapped rewrite
error and the drop step is not reached. -/
theorem fullMaintenance_drop_step (epochOk : Bool) (epochErr : Option String)
    (s : Schedule) (now : Int) (tr : TaskResults) (safety : SafetyParameters) :
    ((shouldFullRewriteContents s safety = false ∨ tr.rewriteFull = none) →
      ∃ t1 suffix,
        (runFullMaintenance epochOk epochErr (Except.ok s) now tr safety).1 =
          t1 ++ (runTaskDropDeletedContentsFull now s safety tr.dropDeleted).1 ++ suffix ∧
        (t1 = [] ∨ t1 = [TaskRewriteContentsFull])) ∧
    (∀ e, shouldFullRewriteContents s safety = true → tr.rewriteFull = some e →
      runFullMaintenance epochOk epochErr (Except.ok s) now tr safety =
        ([TaskRewriteContentsFull],
          some (errWrap "error rewriting contents in short packs" e))) := by
  constructor
  · intro hrw
    rcases hdrop : runTaskDropDeletedContentsFull now s safety tr.dropDeleted with ⟨t2, e2⟩
    cases hc : shouldFullRewriteContents s safety
    · refine ⟨[], ?_⟩
      simp only [runFullMaintenance, hc, Bool.false_eq_true, if_false, hdrop]
      cases e2
      · cases hdel : shouldDeleteOrphanedPacks now s safety
        · cases hlog : tr.cleanupLogs
          · rcases hep : runTaskCleanupEpochManager epochOk epochErr tr.cleanupEpoch with ⟨t5, e5⟩
            cases e5 <;>
              exact ⟨TaskCleanupLogs :: t5, by simp [hdel, hlog, hep], by simp⟩
          · exact ⟨[TaskCleanupLogs], by simp [hdel, hlog], by simp⟩
        · cases hdf : tr.deleteFull
          · cases hlog : tr.cleanupLogs
            · rcases hep : runTaskCleanupEpochManager epochOk epochErr tr.cleanupEpoch with ⟨t5, e5⟩
              cases e5 <;>
                exact ⟨TaskDeleteOrphanedBlobsFull :: TaskCleanupLogs :: t5,
                  by simp [hdel, hdf, hlog, hep], by simp⟩
            · exact ⟨[TaskDeleteOrphanedBlobsFull, TaskCleanupLogs],
                by simp [hdel, hdf, hlog], by simp⟩
          · exact ⟨[TaskDeleteOrphanedBlobsFull], by simp [hdel, hdf], by simp⟩
      · exact ⟨[], by simp, by simp⟩
    · have hrwnone : tr.rewriteFull = none := by
        rcases hrw with h | h
        · rw [hc] at h; cases h
        · exact h
      refine ⟨[TaskRewriteContentsFull], ?_⟩
      simp only [runFullMaintenance, hc, if_true, hrwnone, Option.map_none, hdrop]
      cases e2
      · cases hdel : shouldDeleteOrphanedPacks now s safety
        · cases hlog : tr.cleanupLogs
          · rcases hep : runTaskCleanupEpochManager epochOk epochErr tr.cleanupEpoch with ⟨t5, e5⟩
            cases e5 <;>
              exact ⟨TaskCleanupLogs :: t5, by simp [hdel, hlog, hep], by simp⟩
          · exact ⟨[TaskCleanupLogs], by simp [hdel, hlog], by simp⟩
        · cases hdf : tr.deleteFull
          · cases hlog : tr.cleanupLogs
            · rcases hep : runTaskCleanupEpochManager epochOk epochErr tr.cleanupEpoch with ⟨t5, e5⟩
              cases e5 <;>
                exact ⟨TaskDeleteOrphanedBlobsFull :: TaskCleanupLogs :: t5,
                  by simp [hdel, hdf, hlog, hep], by simp⟩
            · exact ⟨[TaskDeleteOrphanedBlobsFull, TaskCleanupLogs],
                by simp [hdel, hdf, hlog], by simp⟩
          · exact ⟨[TaskDeleteOrphanedBlobsFull], by simp [hdel, hdf], by simp⟩
      · exact ⟨[], by simp, by simp⟩
  · intro e hc hfail
    simp only [runFullMaintenance, hc, if_true, hfail]
    rfl

/-- Witness for C3 (amended): a fresh schedule with the rewrite due and
succeeding; the drop step is reached (with `RequireTwoGCCycles` off and a
nonzero clock it attempts the drop task). -/
theorem fullMaintenance_drop_step_witness :
    (runFullMaintenance false none (Except.ok ⟨0, 0, fun _ => []⟩) 5
        ⟨none, none, none, none, none, none, none, none⟩ ⟨false, 1, 1, 1⟩).1 =
      [TaskRewriteContentsFull] ++
        (runTaskDropDeletedContentsFull 5 ⟨0, 0, fun _ => []⟩ ⟨false, 1, 1, 1⟩ none).1 ++
        [TaskDeleteOrphanedBlobsFull, TaskCleanupLogs] := by
  have h := (fullMaintenance_drop_step false none ⟨0, 0, fun _ => []⟩ 5
    ⟨none, none, none, none, none, none, none, none⟩ ⟨false, 1, 1, 1⟩).1 (Or.inr rfl)
  rcases h with ⟨t1, suffix, heq, ht1⟩
  decide

/-- Counterexample to C3 as stated: when the full rewrite task fails, the
cycle aborts and the drop-deleted-contents step is NOT attempted, even
though the drop step would have attempted its task (second conjunct). -/
theorem fullMaintenance_drop_step_cex :
    TaskDropDeletedContentsFull ∉
      (runFullMaintenance false none (Except.ok ⟨0, 0, fun _ => []⟩) 5
        ⟨none, some "boom", none, none, none, none, none, none⟩ ⟨false, 1, 1, 1⟩).1 ∧
    (runTaskDropDeletedContentsFull 5 ⟨0, 0, fun _ => []⟩ ⟨false, 1, 1, 1⟩ none).1 =
      [TaskDropDeletedContentsFull] := by
  decide

/-- C4: every `RunExclusive` invocation with `force = false` and a
`Params.Owner` differing from the identity of the local caller returns
`NotOwnedError` carrying the owner identity, with zero side effects:
no local lock acquired, no schedule write, no callback. -/
theorem runExclusive_not_owned (env : RunEnv) (mode : Mode) (p : Params)
    (hp : env.getParams = Except.ok p) (hown : p.Owner ≠ env.username) :
    RunExclusive env mode false = (Except.error (MaintError.notOwned p.Owner), baseEffects) ∧
    baseEffects.lockAcquired = false ∧
    baseEffects.scheduleWritten = none ∧
    baseEffects.callbackInvoked = false := by
  have hb : isOwnedByByThisUser p env.username = false := by
    simp only [isOwnedByByThisUser]
    exact beq_eq_false_iff_ne.mpr hown
  refine ⟨?_, rfl, rfl, rfl⟩
  simp [RunExclusive, hp, hb]

/-- Witness for C4: owner `alice@host`, caller `bob@host`. -/
theorem runExclusive_not_owned_witness :
    RunExclusive
      { username := "bob@host"
        getParams := Except.ok ⟨"alice@host", ⟨true, 10⟩, ⟨true, 5⟩⟩
        getSchedule := Except.ok ⟨0, 0, fun _ => []⟩
        setScheduleResult := none
        now := 0
        tryLock := Except.ok true
        blobMetadataTimestamp := Except.ok 0
        refreshResult := none
        cbResult := none }
      ModeAuto false
      = (Except.error (MaintError.notOwned "alice@host"), baseEffects) :=
  (runExclusive_not_owned _ ModeAuto ⟨"alice@host", ⟨true, 10⟩, ⟨true, 5⟩⟩ rfl
    (by decide)).1

/-- C10 (implicit): `shouldRun` returns `none` whenever the local user
identity differs from `Params.Owner`, before consulting the schedule at all
(the schedule outcome is arbitrary, including a load error); consequently
`RunExclusive` invoked with mode `auto` and `force = true` on a repository
owned by a different identity completes successfully with no maintenance
performed (no lock, no schedule write, no callback). -/
theorem shouldRun_owner_precedence :
    (∀ (username : String) (getS : Except String Schedule) (now : Int) (p : Params),
      p.Owner ≠ username → shouldRun username getS now p = Except.ok ModeNone) ∧
    (∀ (env : RunEnv) (p : Params), env.getParams = Except.ok p →
      p.Owner ≠ env.username →
      RunExclusive env ModeAuto true = (Except.ok (), baseEffects)) := by
  constructor
  · intro username getS now p h
    simp [shouldRun, h]
  · intro env p hp h
    have hs : shouldRun env.username env.getSchedule env.now p = Except.ok ModeNone := by
      simp [shouldRun, h]
    simp [RunExclusive, hp, hs]

/-- Witness for C10: a schedule whose load would even fail, and a full
`RunExclusive` environment, both with a foreign owner. -/
theorem shouldRun_owner_precedence_witness :
    shouldRun "bob@host" (Except.error "storage down") 99
      ⟨"alice@host", ⟨true, 10⟩, ⟨true, 5⟩⟩ = Except.ok ModeNone ∧
    RunExclusive
      { username := "bob@host"
        getParams := Except.ok ⟨"alice@host", ⟨true, 10⟩, ⟨true, 5⟩⟩
        getSchedule := Except.error "storage down"
        setScheduleResult := none
        now := 99
        tryLock := Except.ok true
        blobMetadataTimestamp := Except.ok 0
        refreshResult := none
        cbResult := none }
      ModeAuto true = (Except.ok (), baseEffects) :=
  ⟨shouldRun_owner_precedence.1 "bob@host" (Except.error "storage down") 99
      ⟨"alice@host", ⟨true, 10⟩, ⟨true, 5⟩⟩ (by decide),
    shouldRun_owner_precedence.2 _ ⟨"alice@host", ⟨true, 10⟩, ⟨true, 5⟩⟩ rfl (by decide)⟩

/-- C8: `shouldRun` resolves full before quick: when the full cycle is
enabled and the repository clock is at or past `NextFullMaintenanceTime`,
the result is full regardless of the quick due time; otherwise an enabled,
due quick cycle resolves to quick; a disabled cycle is skipped regardless
of its due time, so with both cycles disabled the result is none. -/
theorem shouldRun_resolution (username : String) (s : Schedule) (now : Int) (p : Params)
    (howner : p.Owner = username) :
    (p.FullCycle.Enabled = true → s.NextFullMaintenanceTime ≤ now →
      shouldRun username (Except.ok s) now p = Except.ok ModeFull) ∧
    ((p.FullCycle.Enabled = false ∨ now < s.NextFullMaintenanceTime) →
      p.QuickCycle.Enabled = true → s.NextQuickMaintenanceTime ≤ now →
      shouldRun username (Except.ok s) now p = Except.ok ModeQuick) ∧
    (p.FullCycle.Enabled = false → p.QuickCycle.Enabled = false →
      shouldRun username (Except.ok s) now p = Except.ok ModeNone) := by
  refine ⟨?_, ?_, ?_⟩
  · intro hen hdue
    simp [shouldRun, howner, hen, not_lt.mpr hdue]
  · intro hfull hqen hqdue
    rcases hfull with hfen | hfdue
    · simp [shouldRun, howner, hfen, hqen, not_lt.mpr hqdue]
    · simp [shouldRun, howner, hfdue, hqen, not_lt.mpr hqdue]
  · intro hfen hqen
    simp [shouldRun, howner, hfen, hqen]

/-- Witness for C8: full due and quick due simultaneously resolves to full;
quick-only due resolves to quick; both cycles disabled resolves to none. -/
theorem shouldRun_resolution_witness :
    shouldRun "u" (Except.ok ⟨5, 5, fun _ => []⟩) 10 ⟨"u", ⟨true, 1⟩, ⟨true, 1⟩⟩ =
      Except.ok ModeFull ∧
    shouldRun "u" (Except.ok ⟨50, 5, fun _ => []⟩) 10 ⟨"u", ⟨true, 1⟩, ⟨true, 1⟩⟩ =
      Except.ok ModeQuick ∧
    shouldRun "u" (Except.ok ⟨5, 5, fun _ => []⟩) 10 ⟨"u", ⟨false, 1⟩, ⟨false, 1⟩⟩ =
      Except.ok ModeNone :=
  ⟨(shouldRun_resolution "u" ⟨5, 5, fun _ => []⟩ 10 ⟨"u", ⟨true, 1⟩, ⟨true, 1⟩⟩ rfl).1
      rfl (by decide),
    (shouldRun_resolution "u" ⟨50, 5, fun _ => []⟩ 10 ⟨"u", ⟨true, 1⟩, ⟨true, 1⟩⟩ rfl).2.1
      (Or.inr (by decide)) rfl (by decide),
    (shouldRun_resolution "u" ⟨5, 5, fun _ => []⟩ 10 ⟨"u", ⟨false, 1⟩, ⟨false, 1⟩⟩ rfl).2.2
      rfl rfl⟩

/-- C9: schedule advance is mode-dependent with a frame condition: on
`full`, both next-times are set to the repository clock plus their
respective configured intervals; on `quick`, only the quick next-time is
updated and the full next-time (and the run history) is unchanged. -/
theorem updateSchedule_frame (s : Schedule) (now : Int) (p : Params) :
    updateSchedule (Except.ok s) none now p ModeFull =
      Except.ok (some { s with
        NextFullMaintenanceTime := now + p.FullCycle.Interval
        NextQuickMaintenanceTime := now + p.QuickCycle.Interval }) ∧
    updateSchedule (Except.ok s) none now p ModeQuick =
      Except.ok (some { s with NextQuickMaintenanceTime := now + p.QuickCycle.Interval }) ∧
    (∀ s2, updateSchedule (Except.ok s) none now p ModeQuick = Except.ok (some s2) →
      s2.NextFullMaintenanceTime = s.NextFullMaintenanceTime ∧
      s2.Runs = s.Runs ∧
      s2.NextQuickMaintenanceTime = now + p.QuickCycle.Interval) ∧
    (∀ s2, updateSchedule (Except.ok s) none now p ModeFull = Except.ok (some s2) →
      s2.NextFullMaintenanceTime = now + p.FullCycle.Interval ∧
      s2.NextQuickMaintenanceTime = now + p.QuickCycle.Interval ∧
      s2.Runs = s.Runs) := by
  refine ⟨rfl, rfl, ?_, ?_⟩
  · intro s2 h
    simp only [updateSchedule, ModeQuick, ModeFull, Except.ok.injEq, Option.some.injEq] at h
    rw [← h]
    exact ⟨rfl, rfl, rfl⟩
  · intro s2 h
    simp only [updateSchedule, ModeQuick, ModeFull, Except.ok.injEq, Option.some.injEq] at h
    rw [← h]
    exact ⟨rfl, rfl, rfl⟩

/-- Witness for C9: concrete schedule (1, 2), clock 10, intervals 100/7;
quick advance leaves the full next-time at 1. -/
theorem updateSchedule_frame_witness :
    updateSchedule (Except.ok ⟨1, 2, fun _ => []⟩) none 10 ⟨"o", ⟨true, 100⟩, ⟨true, 7⟩⟩
        ModeQuick =
      Except.ok (some ⟨1, 17, fun _ => []⟩) ∧
    updateSchedule (Except.ok ⟨1, 2, fun _ => []⟩) none 10 ⟨"o", ⟨true, 100⟩, ⟨true, 7⟩⟩
        ModeFull =
      Except.ok (some ⟨110, 17, fun _ => []⟩) :=
  ⟨((updateSchedule_frame ⟨1, 2, fun _ => []⟩ 10 ⟨"o", ⟨true, 100⟩, ⟨true, 7⟩⟩).2.1).trans
      (by rfl),
    ((updateSchedule_frame ⟨1, 2, fun _ => []⟩ 10 ⟨"o", ⟨true, 100⟩, ⟨true, 7⟩⟩).1).trans
      (by rfl)⟩

theorem pair_forall_mem_append (l1 l2 : List RunInfo) :
    (∀ l ∈ [l1, l2], ∀ r ∈ l, r.Success = false) ↔
      ∀ r ∈ l1 ++ l2, r.Success = false := by
  constructor
  · intro h r hr
    rcases List.mem_append.mp hr with h1 | h1
    · exact h l1 (by simp) r h1
    · exact h l2 (by simp) r h1
  · intro h l hl r hr
    rcases List.mem_cons.mp hl with h1 | h1
    · subst h1
      exact h r (List.mem_append.mpr (Or.inl hr))
    · rcases List.mem_cons.mp h1 with h2 | h2
      · subst h2
        exact h r (List.mem_append.mpr (Or.inr hr))
      · cases h2

/-- C5: a new rewrite of a given class is permitted exactly when no prior
rewrite of the relevant class set ever succeeded, or
`MinRewriteToOrphanDeletionDelay` is zero, or the latest successful
orphan-blob deletion (either class) is not before the latest successful
rewrite end — the quick-rewrite check considering both quick and full
rewrite history, the full-rewrite check full history only. Stated under
the realistic assumption that every successful run ends after the zero
timestamp. -/
theorem rewrite_gating (s : Schedule) (safety : SafetyParameters)
    (hpos : ∀ r ∈ s.Runs TaskRewriteContentsFull ++ s.Runs TaskRewriteContentsQuick,
      r.Success = true → 0 < r.End) :
    (shouldQuickRewriteContents s safety = true ↔
      (∀ r ∈ s.Runs TaskRewriteContentsFull ++ s.Runs TaskRewriteContentsQuick,
        r.Success = false) ∨
      safety.MinRewriteToOrphanDeletionDelay = 0 ∨
      maxEndTime [s.Runs TaskRewriteContentsFull, s.Runs TaskRewriteContentsQuick] ≤
        maxEndTime [s.Runs TaskDeleteOrphanedBlobsFull, s.Runs TaskDeleteOrphanedBlobsQuick]) ∧
    (shouldFullRewriteContents s safety = true ↔
      (∀ r ∈ s.Runs TaskRewriteContentsFull, r.Success = false) ∨
      safety.MinRewriteToOrphanDeletionDelay = 0 ∨
      maxEndTime [s.Runs TaskRewriteContentsFull] ≤
        maxEndTime [s.Runs TaskDeleteOrphanedBlobsFull, s.Runs TaskDeleteOrphanedBlobsQuick]) := by
  have hposPair : ∀ l ∈ [s.Runs TaskRewriteContentsFull, s.Runs TaskRewriteContentsQuick],
      ∀ r ∈ l, r.Success = true → 0 < r.End := by
    intro l hl r hr hs2
    rcases List.mem_cons.mp hl with h1 | h1
    · subst h1
      exact hpos r (List.mem_append.mpr (Or.inl hr)) hs2
    · rcases List.mem_cons.mp h1 with h2 | h2
      · subst h2
        exact hpos r (List.mem_append.mpr (Or.inr hr)) hs2
      · cases h2
  have hposFull : ∀ l ∈ [s.Runs TaskRewriteContentsFull], ∀ r ∈ l,
      r.Success = true → 0 < r.End := by
    intro l hl r hr hs2
    rcases List.mem_cons.mp hl with h1 | h1
    · subst h1
      exact hpos r (List.mem_append.mpr (Or.inl hr)) hs2
    · cases h1
  have hzQ := maxEndTime_eq_zero_iff_noSuccess _ hposPair
  have hzF := maxEndTime_eq_zero_iff_noSuccess _ hposFull
  constructor
  · by_cases hz : maxEndTime [s.Runs TaskRewriteContentsFull, s.Runs TaskRewriteContentsQuick] = 0
    · have hA := (pair_forall_mem_append _ _).mp (hzQ.mp hz)
      simp [shouldQuickRewriteContents, hz]
      exact Or.inl fun r hr => hA r (List.mem_append.mpr hr)
    · have hA : ¬∀ r ∈ s.Runs TaskRewriteContentsFull ++ s.Runs TaskRewriteContentsQuick,
          r.Success = false :=
        fun h => hz (hzQ.mpr ((pair_forall_mem_append _ _).mpr h))
      by_cases hd : safety.MinRewriteToOrphanDeletionDelay = 0
      · simp [shouldQuickRewriteContents, hz, hd]
      · simp [shouldQuickRewriteContents, hz, hd, Bool.not_eq_true',
          decide_eq_false_iff_not, not_lt]
        intro h
        exact absurd (fun r hr => h r (List.mem_append.mp hr)) hA
  · by_cases hz : maxEndTime [s.Runs TaskRewriteContentsFull] = 0
    · have hA : ∀ r ∈ s.Runs TaskRewriteContentsFull, r.Success = false := by
        intro r hr
        exact hzF.mp hz _ (by simp) r hr
      simp [shouldFullRewriteContents, hz]
      exact Or.inl hA
    · have hA : ¬∀ r ∈ s.Runs TaskRewriteContentsFull, r.Success = false := by
        intro h
        exact hz (hzF.mpr (by
          intro l hl r hr
          rcases List.mem_cons.mp hl with h1 | h1
          · subst h1
            exact h r hr
          · cases h1))
      by_cases hd : safety.MinRewriteToOrphanDeletionDelay = 0
      · simp [shouldFullRewriteContents, hz, hd]
      · simp [shouldFullRewriteContents, hz, hd, Bool.not_eq_true',
          decide_eq_false_iff_not, not_lt]
        intro h
        exact absurd h hA

/-- Witness for C5: one successful full rewrite ending at 10 and one
successful full-class deletion ending at 10 (deletion not before rewrite),
with a nonzero delay: both rewrite classes are permitted. -/
theorem rewrite_gating_witness :
    shouldQuickRewriteContents
      ⟨0, 0, fun t => if t = TaskRewriteContentsFull then [⟨0, 10, true⟩]
        else if t = TaskDeleteOrphanedBlobsFull then [⟨2, 10, true⟩] else []⟩
      ⟨true, 5, 5, 5⟩ = true ∧
    shouldFullRewriteContents
      ⟨0, 0, fun t => if t = TaskRewriteContentsFull then [⟨0, 10, true⟩]
        else if t = TaskDeleteOrphanedBlobsFull then [⟨2, 10, true⟩] else []⟩
      ⟨true, 5, 5, 5⟩ = true := by
  have h := rewrite_gating
    ⟨0, 0, fun t => if t = TaskRewriteContentsFull then [⟨0, 10, true⟩]
      else if t = TaskDeleteOrphanedBlobsFull then [⟨2, 10, true⟩] else []⟩
    ⟨true, 5, 5, 5⟩ (by decide)
  exact ⟨h.1.mpr (Or.inr (Or.inr (by decide))), h.2.mpr (Or.inr (Or.inr (by decide)))⟩

/-- Shape of the quick-cycle trace when the rewrite step does not fail:
the rewrite segment, then the deletion segment selected by
`hadRecentFullRewrite`, then a suffix drawn from index compaction and log
cleanup. -/
theorem runQuickMaintenance_trace (s : Schedule) (now : Int) (tr : TaskResults)
    (safety : SafetyParameters)
    (h1 : (if shouldQuickRewriteContents s safety then tr.rewriteQuick else none) = none) :
    ∃ suffix,
      (runQuickMaintenance false none (Except.ok s) now tr safety).1 =
        (if shouldQuickRewriteContents s safety then [TaskRewriteContentsQuick] else []) ++
        (if shouldDeleteOrphanedPacks now s safety then
          (if hadRecentFullRewrite s then [TaskDeleteOrphanedBlobsFull]
            else [TaskDeleteOrphanedBlobsQuick])
          else []) ++ suffix ∧
      suffix ⊆ [TaskIndexCompaction, TaskCleanupLogs] := by
  cases hc : shouldQuickRewriteContents s safety
  · cases hdel : shouldDeleteOrphanedPacks now s safety <;>
      cases hfull : hadRecentFullRewrite s <;>
      cases hdf : tr.deleteFull <;>
      cases hdq : tr.deleteQuick <;>
      cases hic : tr.indexCompaction <;>
      cases hlog : tr.cleanupLogs <;>
      first
      | (refine ⟨[], ?_, ?_⟩ <;>
          first
          | (simp [runQuickMaintenance, hc, hdel, hfull, hdf, hdq, hic, hlog]; done)
          | decide)
      | (refine ⟨[TaskIndexCompaction], ?_, ?_⟩ <;>
          first
          | (simp [runQuickMaintenance, hc, hdel, hfull, hdf, hdq, hic, hlog]; done)
          | decide)
      | (refine ⟨[TaskIndexCompaction, TaskCleanupLogs], ?_, ?_⟩ <;>
          first
          | (simp [runQuickMaintenance, hc, hdel, hfull, hdf, hdq, hic, hlog]; done)
          | decide)
  · replace h1 : tr.rewriteQuick = none := by simpa [hc] using h1
    cases hdel : shouldDeleteOrphanedPacks now s safety <;>
      cases hfull : hadRecentFullRewrite s <;>
      cases hdf : tr.deleteFull <;>
      cases hdq : tr.deleteQuick <;>
      cases hic : tr.indexCompaction <;>
      cases hlog : tr.cleanupLogs <;>
      first
      | (refine ⟨[], ?_, ?_⟩ <;>
          first
          | (simp [runQuickMaintenance, hc, h1, hdel, hfull, hdf, hdq, hic, hlog]; done)
          | decide)
      | (refine ⟨[TaskIndexCompaction], ?_, ?_⟩ <;>
          first
          | (simp [runQuickMaintenance, hc, h1, hdel, hfull, hdf, hdq, hic, hlog]; done)
          | decide)
      | (refine ⟨[TaskIndexCompaction, TaskCleanupLogs], ?_, ?_⟩ <;>
          first
          | (simp [runQuickMaintenance, hc, h1, hdel, hfull, hdf, hdq, hic, hlog]; done)
          | decide)

/-- C6: in the quick cycle, when orphan-blob deletion is due (and the
rewrite step did not fail), the orchestrator selects full orphan-blob
deletion exactly when the latest successful full-rewrite end is not before
the latest successful quick-rewrite end (ties count as full being at least
as recent), and quick orphan-blob deletion otherwise. -/
theorem quick_deletion_selection (s : Schedule) (now : Int) (tr : TaskResults)
    (safety : SafetyParameters)
    (hdel : shouldDeleteOrphanedPacks now s safety = true)
    (hrw : shouldQuickRewriteContents s safety = false ∨ tr.rewriteQuick = none) :
    (hadRecentFullRewrite s = true ↔
      maxEndTime [s.Runs TaskRewriteContentsQuick] ≤
        maxEndTime [s.Runs TaskRewriteContentsFull]) ∧
    (hadRecentFullRewrite s = true →
      TaskDeleteOrphanedBlobsFull ∈ (runQuickMaintenance false none (Except.ok s) now tr safety).1 ∧
      TaskDeleteOrphanedBlobsQuick ∉ (runQuickMaintenance false none (Except.ok s) now tr safety).1) ∧
    (hadRecentFullRewrite s = false →
      TaskDeleteOrphanedBlobsQuick ∈ (runQuickMaintenance false none (Except.ok s) now tr safety).1 ∧
      TaskDeleteOrphanedBlobsFull ∉ (runQuickMaintenance false none (Except.ok s) now tr safety).1) := by
  have h1 : (if shouldQuickRewriteContents s safety then tr.rewriteQuick else none) = none := by
    rcases hrw with h | h
    · simp [h]
    · simp [h]
  obtain ⟨suffix, htrace, hsub⟩ := runQuickMaintenance_trace s now tr safety h1
  refine ⟨?_, ?_, ?_⟩
  · simp [hadRecentFullRewrite, Bool.not_eq_true', decide_eq_false_iff_not, not_lt]
  · intro hfull
    have htrace2 : (runQuickMaintenance false none (Except.ok s) now tr safety).1 =
        (if shouldQuickRewriteContents s safety then [TaskRewriteContentsQuick] else []) ++
        [TaskDeleteOrphanedBlobsFull] ++ suffix := by
      rw [htrace, hdel, hfull]
      simp
    rw [htrace2]
    constructor
    · exact List.mem_append_left _ (List.mem_append_right _ (by decide))
    · intro hmem
      rcases List.mem_append.mp hmem with h | h
      · rcases List.mem_append.mp h with h2 | h2
        · revert h2
          split
          · decide
          · decide
        · exact absurd h2 (by decide)
      · have h3 := hsub h
        revert h3
        decide
  · intro hfull
    have htrace2 : (runQuickMaintenance false none (Except.ok s) now tr safety).1 =
        (if shouldQuickRewriteContents s safety then [TaskRewriteContentsQuick] else []) ++
        [TaskDeleteOrphanedBlobsQuick] ++ suffix := by
      rw [htrace, hdel, hfull]
      simp
    rw [htrace2]
    constructor
    · exact List.mem_append_left _ (List.mem_append_right _ (by decide))
    · intro hmem
      rcases List.mem_append.mp hmem with h | h
      · rcases List.mem_append.mp h with h2 | h2
        · revert h2
          split
          · decide
          · decide
        · exact absurd h2 (by decide)
      · have h3 := hsub h
        revert h3
        decide

/-- Witness for C6: full and quick rewrites both ended at 10 (a tie), zero
deletion delay, clock 10: deletion is due and the tie escalates to full
orphan-blob deletion. -/
theorem quick_deletion_selection_witness :
    TaskDeleteOrphanedBlobsFull ∈
      (runQuickMaintenance false none
        (Except.ok ⟨0, 0, fun t => if t = TaskRewriteContentsFull then [⟨0, 10, true⟩]
          else if t = TaskRewriteContentsQuick then [⟨1, 10, true⟩] else []⟩) 10
        ⟨none, none, none, none, none, none, none, none⟩ ⟨true, 0, 0, 0⟩).1 ∧
    TaskDeleteOrphanedBlobsQuick ∉
      (runQuickMaintenance false none
        (Except.ok ⟨0, 0, fun t => if t = TaskRewriteContentsFull then [⟨0, 10, true⟩]
          else if t = TaskRewriteContentsQuick then [⟨1, 10, true⟩] else []⟩) 10
        ⟨none, none, none, none, none, none, none, none⟩ ⟨true, 0, 0, 0⟩).1 :=
  (quick_deletion_selection
    ⟨0, 0, fun t => if t = TaskRewriteContentsFull then [⟨0, 10, true⟩]
      else if t = TaskRewriteContentsQuick then [⟨1, 10, true⟩] else []⟩ 10
    ⟨none, none, none, none, none, none, none, none⟩ ⟨true, 0, 0, 0⟩
    (by decide) (Or.inr rfl)).2.1 (by decide)

theorem checkClockSkewBounds_isSome_iff (localTime repoTime : Int) :
    (checkClockSkewBounds localTime repoTime).isSome = true ↔
      maxClockSkew < |repoTime - localTime| := by
  simp only [checkClockSkewBounds]
  have habs : (if repoTime - localTime < 0 then -(repoTime - localTime)
      else repoTime - localTime) = |repoTime - localTime| := by
    by_cases h : repoTime - localTime < 0
    · rw [if_pos h]
      exact (abs_of_neg h).symm
    · rw [if_neg h]
      exact (abs_of_nonneg (not_lt.mp h)).symm
  rw [habs]
  by_cases h2 : maxClockSkew < |repoTime - localTime|
  · simp [h2]
  · simp [h2]

/-- C7: the clock-skew check fails exactly when the absolute difference
between `MaintenanceStartTime` and the local clock strictly exceeds
5 minutes, in either direction (a difference of exactly the bound or less
proceeds); and when it fails inside `RunExclusive`, the invocation returns
an error before the callback (and hence any task) runs. -/
theorem clock_skew_check (localTime repoTime : Int) :
    ((checkClockSkewBounds localTime repoTime).isSome = true ↔
      maxClockSkew < |repoTime - localTime|) ∧
    (∀ (env : RunEnv) (p : Params) (s : Schedule) (ts : Int) (mode : Mode),
      env.getParams = Except.ok p →
      (mode = ModeQuick ∨ mode = ModeFull) →
      env.tryLock = Except.ok true →
      env.getSchedule = Except.ok s →
      env.setScheduleResult = none →
      env.blobMetadataTimestamp = Except.ok ts →
      maxClockSkew < |ts - env.now| →
      (RunExclusive env mode true).2.callbackInvoked = false ∧
      ∃ e, (RunExclusive env mode true).1 = Except.error (MaintError.other e)) := by
  constructor
  · exact checkClockSkewBounds_isSome_iff localTime repoTime
  · intro env p s ts mode hp hmode hlock hsched hset hblob hskew
    have hcs : ∃ msg, checkClockSkewBounds env.now ts = some msg := by
      rw [← Option.isSome_iff_exists]
      exact (checkClockSkewBounds_isSome_iff env.now ts).mpr hskew
    rcases hcs with ⟨msg, hmsg⟩
    rcases hmode with h | h <;> subst h <;>
      simp [RunExclusive, hp, hlock, hsched, hset, hblob, hmsg, updateSchedule,
        ModeQuick, ModeFull, ModeAuto, ModeNone, baseEffects]

/-- Witness for C7: a repository timestamp just beyond the 5-minute bound
makes the check fail, and a fully concrete `RunExclusive` run aborts with
an error before invoking the callback. -/
theorem clock_skew_check_witness :
    (checkClockSkewBounds 0 300000000001).isSome = true ∧
    ((RunExclusive
        { username := "u"
          getParams := Except.ok ⟨"u", ⟨true, 1⟩, ⟨true, 1⟩⟩
          getSchedule := Except.ok ⟨0, 0, fun _ => []⟩
          setScheduleResult := none
          now := 0
          tryLock := Except.ok true
          blobMetadataTimestamp := Except.ok 300000000001
          refreshResult := none
          cbResult := none }
        ModeFull true).2.callbackInvoked = false ∧
      ∃ e, (RunExclusive
        { username := "u"
          getParams := Except.ok ⟨"u", ⟨true, 1⟩, ⟨true, 1⟩⟩
          getSchedule := Except.ok ⟨0, 0, fun _ => []⟩
          setScheduleResult := none
          now := 0
          tryLock := Except.ok true
          blobMetadataTimestamp := Except.ok 300000000001
          refreshResult := none
          cbResult := none }
        ModeFull true).1 = Except.error (MaintError.other e)) :=
  ⟨(clock_skew_check 0 300000000001).1.mpr (by decide),
    (clock_skew_check 0 300000000001).2 _ ⟨"u", ⟨true, 1⟩, ⟨true, 1⟩⟩ ⟨0, 0, fun _ => []⟩
      300000000001 ModeFull rfl (Or.inr rfl) rfl rfl rfl rfl (by decide)⟩

end Kopia.Maintenance
